import Mathlib

/-! Shallow embedding of the flexible-house simulator core: `optimiser.py`
(`_norm`, `compute_scores`, `optimise_ev`, `optimise_heatpump`) and
`baseline.py` (`build_ev_baseline`, `estimate_daily_heat_demand`,
`build_heatpump_baseline`).  Prices, carbon intensities and energies are
exact rationals; clock times are minutes after midnight; a data frame is a
list of slots in day order, indexed by position (the frames built in
`main.py` carry a default range index, so label and position coincide). -/

/-- One half-hour slot of the day: its clock time (minutes after midnight)
together with the grid signal (price, carbon intensity) joined on it. -/
structure Slot where
  time : ℕ
  price : ℚ
  carbon : ℚ

/-- pandas `Series.min()` over the values of a series (0 on an empty series,
which the source never reduces). -/
def seriesMin : List ℚ → ℚ
  | [] => 0
  | x :: xs => xs.foldl min x

/-- pandas `Series.max()` over the values of a series (0 on an empty series,
which the source never reduces). -/
def seriesMax : List ℚ → ℚ
  | [] => 0
  | x :: xs => xs.foldl max x

/-- Min-max normalisation to [0, 1] (`_norm` in `optimiser.py`): a series
whose max equals its min maps to 0.5 everywhere, otherwise
`x ↦ (x - min) / (max - min)`. -/
def _norm (xs : List ℚ) : List ℚ :=
  if seriesMax xs = seriesMin xs then xs.map (fun _ => 1/2)
  else xs.map (fun x => (x - seriesMin xs) / (seriesMax xs - seriesMin xs))

/-- The price column of a frame. -/
def priceCol (frame : List Slot) : List ℚ := frame.map Slot.price

/-- The carbon-intensity column of a frame. -/
def carbonCol (frame : List Slot) : List ℚ := frame.map Slot.carbon

/-- Embedding of `compute_scores` in `optimiser.py`: per-slot goodness score from the
normalised price and carbon columns, switching on the goal string; an
unrecognised goal falls through to the cheapest-energy formula. -/
def compute_scores (frame : List Slot) (opt_goal : String) : List ℚ :=
  let price_n := _norm (priceCol frame)
  let carbon_n := _norm (carbonCol frame)
  if opt_goal = "Cheapest energy" then price_n.map (fun x => -x)
  else if opt_goal = "Lowest carbon" then carbon_n.map (fun x => -x)
  else if opt_goal = "Balanced" then
    List.zipWith (fun p c => -(1/2 : ℚ) * p - (1/2 : ℚ) * c) price_n carbon_n
  else price_n.map (fun x => -x)

/-- Descending rank order on index/score pairs: `p` sorts no later than `q`
when its score is at least as high. -/
def byScore (p q : ℕ × ℚ) : Prop := q.2 ≤ p.2

instance : DecidableRel byScore := fun p q => inferInstanceAs (Decidable (q.2 ≤ p.2))

instance : IsTotal (ℕ × ℚ) byScore := ⟨fun a b => le_total b.2 a.2⟩

instance : IsTrans (ℕ × ℚ) byScore := ⟨fun _ _ _ hab hbc => le_trans hbc hab⟩

/-- pandas `Series.sort_values(ascending=False).index` on a series given as
index/score pairs, modelled as a stable descending sort.  For a descending
sort pandas (`nargsort`) reverses the values and their index labels, takes
numpy's ascending argsort, and reverses the resulting indexer again; with a
stable underlying sort this double reversal yields exactly a stable
descending sort (tied scores keep their original slot order), and numpy's
default sort is its stable insertion sort on the segments of up to 16
elements it does not partition.  For longer runs of tied scores numpy's
unstable introsort can permute the ties; every theorem below that relies on
this definition is independent of the order of tied scores. -/
def sortDescIdx (pairs : List (ℕ × ℚ)) : List ℕ :=
  (pairs.insertionSort byScore).map Prod.fst

/-- The eligibility mask of `optimise_ev` on a clock time `t`: a plain
window when departure is after arrival, and the wrap-around union of
[arrival, end of day) and [start of day, departure) otherwise. -/
def evMask (arrival depart t : ℕ) : Bool :=
  if arrival < depart then decide (arrival ≤ t) && decide (t < depart)
  else decide (arrival ≤ t) || decide (t < depart)

/-- The `candidate_idx` of `optimise_ev`: the positions of the frame whose slot
clock time passes the eligibility mask, in day order. -/
def evCandidates (frame : List Slot) (arrival depart : ℕ) : List ℕ :=
  (List.range frame.length).filter
    (fun i => evMask arrival depart ((frame.map Slot.time).getD i 0))

/-- The allocation loop of `optimise_ev`: walk the ranked slot positions,
assigning `min slot_kwh remaining` to each and reducing the remaining need,
stopping as soon as nothing remains. -/
def evGreedy (slot_kwh : ℚ) : List ℕ → ℚ → List ℚ → List ℚ
  | [], _, acc => acc
  | i :: rest, remaining, acc =>
    if remaining ≤ 0 then acc
    else evGreedy slot_kwh rest (remaining - min slot_kwh remaining)
      (acc.set i (min slot_kwh remaining))

/-- Embedding of `optimise_ev` in `optimiser.py`: zero series when there are no eligible
slots or no positive need, otherwise the greedy fill of the eligible slots
in ranked order with per-slot capacity `charger_kw * 0.5`. -/
def optimise_ev (frame : List Slot) (arrival depart : ℕ) (ev_kwh_needed : ℚ)
    (opt_goal : String) (charger_kw : ℚ) : List ℚ :=
  let scores := compute_scores frame opt_goal
  let cand := evCandidates frame arrival depart
  if cand.length = 0 ∨ ev_kwh_needed ≤ 0 then List.replicate frame.length 0
  else
    let slot_kwh := charger_kw * (1/2)
    let sorted := sortDescIdx (cand.map (fun i => (i, scores.getD i 0)))
    evGreedy slot_kwh sorted ev_kwh_needed (List.replicate frame.length 0)

/-- The `best_idx` of `optimise_heatpump`: the ranked slot positions of the whole
day, truncated to `min (length of day) (max_hours * 2)`. -/
def hpBest (frame : List Slot) (opt_goal : String) (max_hours : ℕ) : List ℕ :=
  let scores := compute_scores frame opt_goal
  let max_slots := min frame.length (max_hours * 2)
  (sortDescIdx ((List.range frame.length).map (fun i => (i, scores.getD i 0)))).take max_slots

/-- Embedding of `optimise_heatpump` in `optimiser.py`: a zero series when the total is
not positive, otherwise a flat `hp_total_kwh / (number of selected slots)`
on the selected top-ranked slots.  The source divides by `len(best_idx)`
unconditionally, so an empty selection raises `ZeroDivisionError`; that
failure is modelled as `none`. -/
def optimise_heatpump (frame : List Slot) (hp_total_kwh : ℚ) (opt_goal : String)
    (max_hours : ℕ) : Option (List ℚ) :=
  if hp_total_kwh ≤ 0 then some (List.replicate frame.length 0)
  else
    let best := hpBest frame opt_goal max_hours
    if best.length = 0 then none
    else some (best.foldl (fun acc i => acc.set i (hp_total_kwh / (best.length : ℚ)))
      (List.replicate frame.length 0))

/-- The slot-filling loop of `build_ev_baseline` in `baseline.py`: each slot
whose timestamp is at or after arrival receives `min slot_kwh remaining`
while something remains (timestamps are minutes after midnight on the one
day of the frame, so the datetime comparison is the numeric one). -/
def evBaselineLoop (slot_kwh : ℚ) (arrival : ℕ) : List ℕ → ℚ → List ℚ
  | [], _ => []
  | t :: ts, remaining =>
    if arrival ≤ t ∧ 0 < remaining then
      (min slot_kwh remaining) :: evBaselineLoop slot_kwh arrival ts (remaining - min slot_kwh remaining)
    else 0 :: evBaselineLoop slot_kwh arrival ts remaining

/-- Embedding of `build_ev_baseline` in `baseline.py`: immediate plug-and-charge from the
arrival time, `power_kw * 0.5` per slot until the need is met or the day
ends. -/
def build_ev_baseline (times : List ℕ) (arrival : ℕ) (ev_kwh_needed power_kw : ℚ) :
    List ℚ :=
  evBaselineLoop (power_kw * (1/2)) arrival times ev_kwh_needed

/-- Embedding of `estimate_daily_heat_demand` in `baseline.py`, as a function of the
calendar month (the source reads `date.month`). -/
def estimate_daily_heat_demand (month : ℕ) : ℚ :=
  if month = 12 ∨ month = 1 ∨ month = 2 then 18
  else if month = 3 ∨ month = 4 ∨ month = 11 then 12
  else if month = 5 ∨ month = 10 then 7
  else if month = 6 ∨ month = 7 ∨ month = 8 then 4
  else 6

/-- The slot positions of a frame's timestamps falling inside one comfort
window [start, end), as collected per window by `build_heatpump_baseline`. -/
def windowIdx (times : List ℕ) (w : ℕ × ℕ) : List ℕ :=
  (List.range times.length).filter
    (fun i => decide (w.1 ≤ times.getD i 0) && decide (times.getD i 0 < w.2))

/-- Embedding of `build_heatpump_baseline` in `baseline.py`: seasonal daily thermal demand
divided by the COP, spread flat over the concatenation of the two comfort
windows' slot positions (the source concatenates the two index lists, so a
slot inside both windows is counted twice in the divisor). -/
def build_heatpump_baseline (month : ℕ) (times : List ℕ)
    (morning_window evening_window : ℕ × ℕ) (cop : ℚ) : List ℚ :=
  let daily_thermal_kwh := estimate_daily_heat_demand month
  let valid_indices := windowIdx times morning_window ++ windowIdx times evening_window
  if valid_indices.length = 0 then List.replicate times.length 0
  else
    let total_elec_kwh := daily_thermal_kwh / cop
    let slot_kwh := total_elec_kwh / (valid_indices.length : ℚ)
    valid_indices.foldl (fun acc i => acc.set i slot_kwh) (List.replicate times.length 0)

/-- Total energy a greedy pass hands out over `n` slots of capacity
`slot_kwh` when `rem` is still required: the running total of
`min slot_kwh remaining` with early exit once nothing remains. -/
def allocTotal (slot_kwh : ℚ) : ℕ → ℚ → ℚ
  | 0, _ => 0
  | n + 1, rem =>
    if rem ≤ 0 then 0 else min slot_kwh rem + allocTotal slot_kwh n (rem - min slot_kwh rem)

/-! ### Helper lemmas: list access, update and sums -/

theorem getD_set_self {l : List ℚ} {i : ℕ} {v : ℚ} (h : i < l.length) :
    (l.set i v).getD i 0 = v := by
  induction l generalizing i with
  | nil => simp at h
  | cons x xs ih =>
    cases i with
    | zero => simp
    | succ n => simpa using ih (by simpa using h)

theorem getD_set_ne {l : List ℚ} {i j : ℕ} {v : ℚ} (h : i ≠ j) :
    (l.set i v).getD j 0 = l.getD j 0 := by
  induction l generalizing i j with
  | nil => simp
  | cons x xs ih =>
    cases i with
    | zero =>
      cases j with
      | zero => exact absurd rfl h
      | succ m => simp
    | succ n =>
      cases j with
      | zero => simp
      | succ m => simpa using ih (fun hnm => h (by omega))

theorem getD_replicate_zero {n i : ℕ} : (List.replicate n (0 : ℚ)).getD i 0 = 0 := by
  induction n generalizing i with
  | zero => simp
  | succ m ih =>
    cases i with
    | zero => simp [List.replicate_succ]
    | succ k => simp [List.replicate_succ, ih]

theorem sum_replicate_zero {n : ℕ} : (List.replicate n (0 : ℚ)).sum = 0 := by
  induction n with
  | zero => simp
  | succ m ih => simp [List.replicate_succ, ih]

theorem sum_set {l : List ℚ} {i : ℕ} {v : ℚ} (h : i < l.length) :
    (l.set i v).sum = l.sum - l.getD i 0 + v := by
  induction l generalizing i with
  | nil => simp at h
  | cons x xs ih =>
    cases i with
    | zero => simp [List.sum_cons]; ring
    | succ n =>
      have := ih (show n < xs.length by simpa using h)
      simp [List.sum_cons, this]
      ring

theorem mem_zipWith_imp {f : ℚ → ℚ → ℚ} {as bs : List ℚ} {y : ℚ}
    (h : y ∈ List.zipWith f as bs) : ∃ a ∈ as, ∃ b ∈ bs, y = f a b := by
  induction as generalizing bs with
  | nil => simp at h
  | cons a as ih =>
    cases bs with
    | nil => simp at h
    | cons b bs =>
      rcases (by simpa using h : y = f a b ∨ y ∈ List.zipWith f as bs) with h1 | h1
      · exact ⟨a, by simp, b, by simp, h1⟩
      · rcases ih h1 with ⟨a1, ha1, b1, hb1, hy⟩
        exact ⟨a1, by simp [ha1], b1, by simp [hb1], hy⟩

/-! ### Helper lemmas: series minimum and maximum -/

theorem foldl_min_le_init (xs : List ℚ) (a : ℚ) : xs.foldl min a ≤ a := by
  induction xs generalizing a with
  | nil => simp
  | cons x xs ih => exact le_trans (ih (min a x)) (min_le_left a x)

theorem foldl_min_le_mem {xs : List ℚ} {x : ℚ} (hx : x ∈ xs) (a : ℚ) :
    xs.foldl min a ≤ x := by
  induction xs generalizing a with
  | nil => simp at hx
  | cons y ys ih =>
    rcases (by simpa using hx : x = y ∨ x ∈ ys) with rfl | h
    · exact le_trans (foldl_min_le_init ys (min a x)) (min_le_right a x)
    · exact ih h (min a y)

theorem foldl_min_cases (xs : List ℚ) (a : ℚ) :
    xs.foldl min a = a ∨ xs.foldl min a ∈ xs := by
  induction xs generalizing a with
  | nil => simp
  | cons y ys ih =>
    have hfold : (y :: ys).foldl min a = ys.foldl min (min a y) := rfl
    rcases ih (min a y) with h | h
    · rcases min_cases a y with ⟨h1, _⟩ | ⟨h1, _⟩
      · left; rw [hfold, h, h1]
      · right; rw [hfold, h, h1]; exact List.mem_cons_self y ys
    · right; rw [hfold]; exact List.mem_cons_of_mem y h

theorem le_foldl_max_init (xs : List ℚ) (a : ℚ) : a ≤ xs.foldl max a := by
  induction xs generalizing a with
  | nil => simp
  | cons x xs ih => exact le_trans (le_max_left a x) (ih (max a x))

theorem le_foldl_max_mem {xs : List ℚ} {x : ℚ} (hx : x ∈ xs) (a : ℚ) :
    x ≤ xs.foldl max a := by
  induction xs generalizing a with
  | nil => simp at hx
  | cons y ys ih =>
    rcases (by simpa using hx : x = y ∨ x ∈ ys) with rfl | h
    · exact le_trans (le_max_right a x) (le_foldl_max_init ys (max a x))
    · exact ih h (max a y)

theorem foldl_max_cases (xs : List ℚ) (a : ℚ) :
    xs.foldl max a = a ∨ xs.foldl max a ∈ xs := by
  induction xs generalizing a with
  | nil => simp
  | cons y ys ih =>
    have hfold : (y :: ys).foldl max a = ys.foldl max (max a y) := rfl
    rcases ih (max a y) with h | h
    · rcases max_cases a y with ⟨h1, _⟩ | ⟨h1, _⟩
      · left; rw [hfold, h, h1]
      · right; rw [hfold, h, h1]; exact List.mem_cons_self y ys
    · right; rw [hfold]; exact List.mem_cons_of_mem y h

theorem seriesMin_le {xs : List ℚ} {x : ℚ} (hx : x ∈ xs) : seriesMin xs ≤ x := by
  cases xs with
  | nil => simp at hx
  | cons y ys =>
    rcases (by simpa using hx : x = y ∨ x ∈ ys) with rfl | h
    · exact foldl_min_le_init ys x
    · exact foldl_min_le_mem h y

theorem le_seriesMax {xs : List ℚ} {x : ℚ} (hx : x ∈ xs) : x ≤ seriesMax xs := by
  cases xs with
  | nil => simp at hx
  | cons y ys =>
    rcases (by simpa using hx : x = y ∨ x ∈ ys) with rfl | h
    · exact le_foldl_max_init ys x
    · exact le_foldl_max_mem h y

theorem seriesMin_mem {xs : List ℚ} (h : xs ≠ []) : seriesMin xs ∈ xs := by
  cases xs with
  | nil => exact absurd rfl h
  | cons y ys =>
    rcases foldl_min_cases ys y with h1 | h1
    · simp [seriesMin, h1]
    · simp [seriesMin, h1]

theorem seriesMax_mem {xs : List ℚ} (h : xs ≠ []) : seriesMax xs ∈ xs := by
  cases xs with
  | nil => exact absurd rfl h
  | cons y ys =>
    rcases foldl_max_cases ys y with h1 | h1
    · simp [seriesMax, h1]
    · simp [seriesMax, h1]

theorem seriesMin_le_seriesMax {xs : List ℚ} (h : xs ≠ []) :
    seriesMin xs ≤ seriesMax xs :=
  le_seriesMax (seriesMin_mem h)

theorem seriesMin_eq_of {xs : List ℚ} {a : ℚ} (ha : a ∈ xs)
    (h : ∀ y ∈ xs, a ≤ y) : seriesMin xs = a :=
  le_antisymm (seriesMin_le ha) (h _ (seriesMin_mem (List.ne_nil_of_mem ha)))

theorem seriesMax_eq_of {xs : List ℚ} {a : ℚ} (ha : a ∈ xs)
    (h : ∀ y ∈ xs, y ≤ a) : seriesMax xs = a :=
  le_antisymm (h _ (seriesMax_mem (List.ne_nil_of_mem ha))) (le_seriesMax ha)

/-! ### Helper lemmas: normalisation and scores -/

theorem length__norm (xs : List ℚ) : (_norm xs).length = xs.length := by
  unfold _norm
  split <;> simp

theorem norm_mem_bounds {xs : List ℚ} {y : ℚ} (hy : y ∈ _norm xs) :
    0 ≤ y ∧ y ≤ 1 := by
  unfold _norm at hy
  split at hy
  · rcases List.mem_map.mp hy with ⟨x, _, rfl⟩
    norm_num
  · rcases List.mem_map.mp hy with ⟨x, hx, rfl⟩
    rename_i hne
    have hnil : xs ≠ [] := List.ne_nil_of_mem hx
    have hlt : seriesMin xs < seriesMax xs :=
      lt_of_le_of_ne (seriesMin_le_seriesMax hnil) (fun h => hne h.symm)
    have hden : (0 : ℚ) < seriesMax xs - seriesMin xs := by linarith
    constructor
    · apply div_nonneg _ (le_of_lt hden)
      have := seriesMin_le hx
      linarith
    · rw [div_le_one hden]
      have := le_seriesMax hx
      linarith

theorem norm_const {xs : List ℚ} (h : seriesMax xs = seriesMin xs) :
    _norm xs = xs.map (fun _ => 1/2) := by
  unfold _norm
  simp [h]

theorem length_compute_scores (frame : List Slot) (g : String) :
    (compute_scores frame g).length = frame.length := by
  unfold compute_scores
  split
  · simp [length__norm, priceCol]
  · split
    · simp [length__norm, carbonCol]
    · split
      · simp [length__norm, priceCol, carbonCol]
      · simp [length__norm, priceCol]

theorem scores_mem_bounds {frame : List Slot} {g : String} {y : ℚ}
    (hy : y ∈ compute_scores frame g) : -1 ≤ y ∧ y ≤ 0 := by
  unfold compute_scores at hy
  have hprice : ∀ z ∈ (_norm (priceCol frame)).map (fun x => -x), -1 ≤ z ∧ z ≤ 0 := by
    intro z hz
    rcases List.mem_map.mp hz with ⟨x, hx, rfl⟩
    have := norm_mem_bounds hx
    constructor <;> linarith [this.1, this.2]
  split at hy
  · exact hprice y hy
  · split at hy
    · rcases List.mem_map.mp hy with ⟨x, hx, rfl⟩
      have := norm_mem_bounds hx
      constructor <;> linarith [this.1, this.2]
    · split at hy
      · rcases mem_zipWith_imp hy with ⟨p, hp, c, hc, rfl⟩
        have h1 := norm_mem_bounds hp
        have h2 := norm_mem_bounds hc
        constructor <;> nlinarith [h1.1, h1.2, h2.1, h2.2]
      · exact hprice y hy

/-! ### Helper lemmas: the descending sort of index/score pairs -/

theorem sortDescIdx_perm (scores : List ℚ) (idxs : List ℕ) :
    List.Perm (sortDescIdx (idxs.map (fun i => (i, scores.getD i 0)))) idxs := by
  unfold sortDescIdx
  have h1 := (List.perm_insertionSort byScore (idxs.map (fun i => (i, scores.getD i 0)))).map Prod.fst
  have h2 : (idxs.map (fun i => (i, scores.getD i 0))).map Prod.fst = idxs := by
    simp [List.map_map, Function.comp_def]
  rw [h2] at h1
  exact h1

theorem sortDescIdx_pairwise (scores : List ℚ) (idxs : List ℕ) :
    List.Pairwise (fun i j => scores.getD j 0 ≤ scores.getD i 0)
      (sortDescIdx (idxs.map (fun i => (i, scores.getD i 0)))) := by
  unfold sortDescIdx
  set pairs := idxs.map (fun i => (i, scores.getD i 0)) with hpairs
  have hsorted : List.Pairwise byScore (pairs.insertionSort byScore) :=
    List.sorted_insertionSort byScore pairs
  have hsnd : ∀ p ∈ pairs.insertionSort byScore, p.2 = scores.getD p.1 0 := by
    intro p hp
    have hp2 : p ∈ pairs := (List.mem_insertionSort byScore).mp hp
    rcases List.mem_map.mp hp2 with ⟨i, _, rfl⟩
    rfl
  have h2 : List.Pairwise (fun p q : ℕ × ℚ => scores.getD q.1 0 ≤ scores.getD p.1 0)
      (pairs.insertionSort byScore) := by
    refine List.Pairwise.imp_of_mem ?_ hsorted
    intro p q hp hq hle
    rw [← hsnd p hp, ← hsnd q hq]
    exact hle
  exact List.pairwise_map.mpr h2

/-! ### Helper lemmas: eligible-slot candidates -/

theorem mem_evCandidates {frame : List Slot} {arrival depart i : ℕ} :
    i ∈ evCandidates frame arrival depart ↔
      i < frame.length ∧ evMask arrival depart ((frame.map Slot.time).getD i 0) = true := by
  unfold evCandidates
  simp [List.mem_filter, List.mem_range]

theorem evCandidates_nodup (frame : List Slot) (arrival depart : ℕ) :
    (evCandidates frame arrival depart).Nodup :=
  (List.nodup_range frame.length).filter _

theorem evCandidates_lt {frame : List Slot} {arrival depart : ℕ} :
    ∀ i ∈ evCandidates frame arrival depart, i < frame.length :=
  fun _ hi => (mem_evCandidates.mp hi).1

/-! ### Helper lemmas: the greedy allocation total -/

theorem allocTotal_nonpos {slot_kwh rem : ℚ} (h : rem ≤ 0) (n : ℕ) :
    allocTotal slot_kwh n rem = 0 := by
  cases n with
  | zero => rfl
  | succ m => simp [allocTotal, h]

theorem allocTotal_eq_min {slot_kwh : ℚ} (hsk : 0 ≤ slot_kwh) :
    ∀ n, ∀ rem : ℚ, 0 ≤ rem → allocTotal slot_kwh n rem = min rem (n * slot_kwh) := by
  intro n
  induction n with
  | zero =>
    intro rem hrem
    simp [allocTotal, min_eq_right hrem]
  | succ m ih =>
    intro rem hrem
    by_cases hr : rem ≤ 0
    · have hrem0 : rem = 0 := le_antisymm hr hrem
      subst hrem0
      rw [allocTotal_nonpos le_rfl]
      exact (min_eq_left (by positivity)).symm
    · push_neg at hr
      have hcharge : min slot_kwh rem ≤ rem := min_le_right _ _
      have hrec := ih (rem - min slot_kwh rem) (by linarith)
      have hmk : (0 : ℚ) ≤ (m : ℚ) * slot_kwh := by positivity
      rw [allocTotal, if_neg (not_le.mpr hr), hrec]
      push_cast
      rcases le_total slot_kwh rem with hle | hle
      · rw [min_eq_left hle]
        rcases le_total (rem - slot_kwh) ((m : ℚ) * slot_kwh) with h1 | h1
        · rw [min_eq_left h1, min_eq_left (by nlinarith : rem ≤ ((m : ℚ) + 1) * slot_kwh)]
          ring
        · rw [min_eq_right h1, min_eq_right (by nlinarith : ((m : ℚ) + 1) * slot_kwh ≤ rem)]
          ring
      · rw [min_eq_right hle]
        simp only [sub_self]
        rw [min_eq_left hmk, min_eq_left (by nlinarith : rem ≤ ((m : ℚ) + 1) * slot_kwh)]
        ring

/-! ### Helper lemmas: the EV greedy loop -/

theorem evGreedy_length (slot_kwh : ℚ) (idxs : List ℕ) (rem : ℚ) (acc : List ℚ) :
    (evGreedy slot_kwh idxs rem acc).length = acc.length := by
  induction idxs generalizing rem acc with
  | nil => rfl
  | cons i rest ih =>
    by_cases h : rem ≤ 0
    · simp [evGreedy, h]
    · simp [evGreedy, h, ih]

theorem evGreedy_getD_not_mem {slot_kwh : ℚ} {idxs : List ℕ} {rem : ℚ} {acc : List ℚ}
    {j : ℕ} (hj : j ∉ idxs) : (evGreedy slot_kwh idxs rem acc).getD j 0 = acc.getD j 0 := by
  induction idxs generalizing rem acc with
  | nil => rfl
  | cons i rest ih =>
    by_cases h : rem ≤ 0
    · simp [evGreedy, h]
    · have hji : j ≠ i := fun hji => hj (by simp [hji])
      have hjrest : j ∉ rest := fun hr => hj (by simp [hr])
      rw [evGreedy, if_neg h, ih hjrest, getD_set_ne (fun hij => hji hij.symm)]

theorem evGreedy_sum {slot_kwh : ℚ} {idxs : List ℕ} {acc : List ℚ}
    (hnd : idxs.Nodup) (hlt : ∀ i ∈ idxs, i < acc.length)
    (hz : ∀ i ∈ idxs, acc.getD i 0 = 0) :
    ∀ rem : ℚ, (evGreedy slot_kwh idxs rem acc).sum = acc.sum + allocTotal slot_kwh idxs.length rem := by
  induction idxs generalizing acc with
  | nil => intro rem; simp [evGreedy, allocTotal]
  | cons i rest ih =>
    intro rem
    by_cases h : rem ≤ 0
    · simp [evGreedy, h, allocTotal, allocTotal_nonpos h]
    · have hilt : i < acc.length := hlt i (by simp)
      have hset : (acc.set i (min slot_kwh rem)).sum = acc.sum + min slot_kwh rem := by
        rw [sum_set hilt, hz i (by simp)]
        ring
      have hndr : rest.Nodup := (List.nodup_cons.mp hnd).2
      have hir : i ∉ rest := (List.nodup_cons.mp hnd).1
      have hltr : ∀ j ∈ rest, j < (acc.set i (min slot_kwh rem)).length := by
        intro j hjr
        rw [List.length_set]
        exact hlt j (by simp [hjr])
      have hzr : ∀ j ∈ rest, (acc.set i (min slot_kwh rem)).getD j 0 = 0 := by
        intro j hjr
        rw [getD_set_ne (fun hij => hir (by rw [hij]; exact hjr))]
        exact hz j (by simp [hjr])
      rw [evGreedy, if_neg h, ih hndr hltr hzr, hset]
      rw [show (i :: rest).length = rest.length + 1 from rfl, allocTotal, if_neg h]
      ring

theorem evGreedy_mem_le {slot_kwh B : ℚ} {idxs : List ℕ} {acc : List ℚ}
    (hB : slot_kwh ≤ B) (hacc : ∀ x ∈ acc, x ≤ B) :
    ∀ rem : ℚ, ∀ x ∈ evGreedy slot_kwh idxs rem acc, x ≤ B := by
  induction idxs generalizing acc with
  | nil => intro rem x hx; exact hacc x hx
  | cons i rest ih =>
    intro rem x hx
    by_cases h : rem ≤ 0
    · rw [evGreedy, if_pos h] at hx
      exact hacc x hx
    · rw [evGreedy, if_neg h] at hx
      refine ih ?_ (rem - min slot_kwh rem) x hx
      intro y hy
      rcases List.mem_or_eq_of_mem_set hy with hy1 | hy1
      · exact hacc y hy1
      · rw [hy1]
        exact le_trans (min_le_left _ _) hB

/-! ### Claim theorems -/

/-- C1: for every input frame, arrival/departure times, non-negative required
energy and non-negative charger power, `optimise_ev` returns a series whose
sum is `min ev_kwh_needed (number of eligible slots * charger_kw * 0.5)`, in
which no slot receives more than `charger_kw * 0.5`, and in which every slot
with positive allocated energy passes the eligibility mask — the window
[arrival, departure) by clock time, or the wrap-around union of
[arrival, end of day) and [start of day, departure) when departure is not
after arrival. -/
theorem ev_allocation_correct (frame : List Slot) (arrival depart : ℕ)
    (ev_kwh_needed charger_kw : ℚ) (opt_goal : String)
    (hneed : 0 ≤ ev_kwh_needed) (hch : 0 ≤ charger_kw) :
    (optimise_ev frame arrival depart ev_kwh_needed opt_goal charger_kw).sum
      = min ev_kwh_needed
          (((evCandidates frame arrival depart).length : ℚ) * (charger_kw * (1/2)))
    ∧ (∀ x ∈ optimise_ev frame arrival depart ev_kwh_needed opt_goal charger_kw,
        x ≤ charger_kw * (1/2))
    ∧ (∀ i : ℕ,
        0 < (optimise_ev frame arrival depart ev_kwh_needed opt_goal charger_kw).getD i 0 →
        evMask arrival depart ((frame.map Slot.time).getD i 0) = true) := by
  have hsk : (0 : ℚ) ≤ charger_kw * (1/2) := by positivity
  simp only [optimise_ev]
  split_ifs with hbr
  · refine ⟨?_, ?_, ?_⟩
    · rw [sum_replicate_zero]
      rcases hbr with h0 | h0
      · rw [h0]
        norm_num
        exact hneed
      · have : ev_kwh_needed = 0 := le_antisymm h0 hneed
        rw [this]
        exact (min_eq_left (by positivity)).symm
    · intro x hx
      rw [List.eq_of_mem_replicate hx]
      exact hsk
    · intro i hi
      rw [getD_replicate_zero] at hi
      exact absurd hi (lt_irrefl 0)
  · push_neg at hbr
    set scores := compute_scores frame opt_goal with hscores
    set cand := evCandidates frame arrival depart with hcand
    set sorted := sortDescIdx (cand.map (fun i => (i, scores.getD i 0))) with hsorted
    have hperm : List.Perm sorted cand := sortDescIdx_perm scores cand
    have hnd : sorted.Nodup :=
      (hperm.nodup_iff).mpr (evCandidates_nodup frame arrival depart)
    have hlt : ∀ i ∈ sorted, i < (List.replicate frame.length (0 : ℚ)).length := by
      intro i hi
      rw [List.length_replicate]
      exact evCandidates_lt i (hperm.mem_iff.mp hi)
    have hz : ∀ i ∈ sorted, (List.replicate frame.length (0 : ℚ)).getD i 0 = 0 :=
      fun i _ => getD_replicate_zero
    refine ⟨?_, ?_, ?_⟩
    · rw [evGreedy_sum hnd hlt hz ev_kwh_needed, sum_replicate_zero,
        allocTotal_eq_min hsk sorted.length ev_kwh_needed hneed, hperm.length_eq]
      ring_nf
    · intro x hx
      refine evGreedy_mem_le le_rfl ?_ ev_kwh_needed x hx
      intro y hy
      rw [List.eq_of_mem_replicate hy]
      exact hsk
    · intro i hi
      by_cases him : i ∈ sorted
      · exact (mem_evCandidates.mp (hperm.mem_iff.mp him)).2
      · rw [evGreedy_getD_not_mem him, getD_replicate_zero] at hi
        exact absurd hi (lt_irrefl 0)

/-- C1 witness: the EV allocation property instantiated on a concrete
two-slot frame with a half-day window, 1 kWh of need and a 7 kW charger. -/
theorem ev_allocation_correct_witness :
    (0 : ℚ) ≤ 1 ∧ (0 : ℚ) ≤ 7 ∧
      ((optimise_ev [⟨0, 3, 100⟩, ⟨30, 5, 200⟩] 0 60 1 "Balanced" 7).sum
        = min 1 (((evCandidates [⟨0, 3, 100⟩, ⟨30, 5, 200⟩] 0 60).length : ℚ) * (7 * (1/2)))
      ∧ (∀ x ∈ optimise_ev [⟨0, 3, 100⟩, ⟨30, 5, 200⟩] 0 60 1 "Balanced" 7, x ≤ 7 * (1/2))
      ∧ (∀ i : ℕ,
          0 < (optimise_ev [⟨0, 3, 100⟩, ⟨30, 5, 200⟩] 0 60 1 "Balanced" 7).getD i 0 →
          evMask 0 60 (([⟨0, 3, 100⟩, ⟨30, 5, 200⟩].map Slot.time).getD i 0) = true)) :=
  ⟨by norm_num, by norm_num,
    ev_allocation_correct [⟨0, 3, 100⟩, ⟨30, 5, 200⟩] 0 60 1 7 "Balanced"
      (by norm_num) (by norm_num)⟩

/-! ### Helper lemmas: writing a constant value at a list of positions -/

theorem foldl_set_length (idxs : List ℕ) (v : ℚ) (acc : List ℚ) :
    (idxs.foldl (fun a i => a.set i v) acc).length = acc.length := by
  induction idxs generalizing acc with
  | nil => rfl
  | cons j rest ih => simp [List.foldl_cons, ih]

theorem foldl_set_getD_not_mem {idxs : List ℕ} {v : ℚ} {acc : List ℚ} {j : ℕ}
    (hj : j ∉ idxs) : (idxs.foldl (fun a i => a.set i v) acc).getD j 0 = acc.getD j 0 := by
  induction idxs generalizing acc with
  | nil => rfl
  | cons k rest ih =>
    have hjk : k ≠ j := fun h => hj (by simp [h])
    have hjrest : j ∉ rest := fun h => hj (by simp [h])
    rw [List.foldl_cons, ih hjrest, getD_set_ne hjk]

theorem foldl_set_getD_mem {idxs : List ℕ} {v : ℚ} {acc : List ℚ} {i : ℕ}
    (hi : i ∈ idxs) (hlt : ∀ j ∈ idxs, j < acc.length) :
    (idxs.foldl (fun a k => a.set k v) acc).getD i 0 = v := by
  induction idxs generalizing acc with
  | nil => simp at hi
  | cons k rest ih =>
    rw [List.foldl_cons]
    by_cases hir : i ∈ rest
    · refine ih hir ?_
      intro j hj
      rw [List.length_set]
      exact hlt j (by simp [hj])
    · have hik : i = k := by
        rcases List.mem_cons.mp hi with h | h
        · exact h
        · exact absurd h hir
      subst hik
      rw [foldl_set_getD_not_mem hir, getD_set_self (hlt i (by simp))]

theorem foldl_set_sum {idxs : List ℕ} {v : ℚ} {acc : List ℚ}
    (hnd : idxs.Nodup) (hlt : ∀ i ∈ idxs, i < acc.length)
    (hz : ∀ i ∈ idxs, acc.getD i 0 = 0) :
    (idxs.foldl (fun a i => a.set i v) acc).sum = acc.sum + (idxs.length : ℚ) * v := by
  induction idxs generalizing acc with
  | nil => simp
  | cons k rest ih =>
    have hkr : k ∉ rest := (List.nodup_cons.mp hnd).1
    have hklt : k < acc.length := hlt k (by simp)
    have hsum : (acc.set k v).sum = acc.sum + v := by
      rw [sum_set hklt, hz k (by simp)]
      ring
    rw [List.foldl_cons, ih (List.nodup_cons.mp hnd).2]
    · rw [hsum, List.length_cons]
      push_cast
      ring
    · intro j hj
      rw [List.length_set]
      exact hlt j (by simp [hj])
    · intro j hj
      rw [getD_set_ne (fun h => hkr (by rw [h]; exact hj))]
      exact hz j (by simp [hj])

/-! ### Helper lemmas: the heat-pump slot selection -/

theorem hpBest_subset_sorted {frame : List Slot} {goal : String} {mh : ℕ} :
    ∀ i ∈ hpBest frame goal mh,
      i ∈ sortDescIdx ((List.range frame.length).map
        (fun k => (k, (compute_scores frame goal).getD k 0))) := by
  intro i hi
  exact (List.take_sublist _ _).mem hi

theorem hpBest_lt {frame : List Slot} {goal : String} {mh : ℕ} :
    ∀ i ∈ hpBest frame goal mh, i < frame.length := by
  intro i hi
  have h1 := hpBest_subset_sorted i hi
  have h2 := (sortDescIdx_perm (compute_scores frame goal) (List.range frame.length)).mem_iff.mp h1
  exact List.mem_range.mp h2

theorem hpBest_nodup (frame : List Slot) (goal : String) (mh : ℕ) :
    (hpBest frame goal mh).Nodup := by
  have hnd : (sortDescIdx ((List.range frame.length).map
      (fun k => (k, (compute_scores frame goal).getD k 0)))).Nodup :=
    ((sortDescIdx_perm (compute_scores frame goal) (List.range frame.length)).nodup_iff).mpr
      (List.nodup_range frame.length)
  exact hnd.sublist (List.take_sublist _ _)

theorem hpBest_length (frame : List Slot) (goal : String) (mh : ℕ) :
    (hpBest frame goal mh).length = min frame.length (mh * 2) := by
  unfold hpBest
  rw [List.length_take,
    (sortDescIdx_perm (compute_scores frame goal) (List.range frame.length)).length_eq,
    List.length_range]
  exact Nat.min_eq_left (Nat.min_le_left _ _)

theorem pairwise_take_not_mem {R : ℕ → ℕ → Prop} {l : List ℕ} {cap : ℕ}
    (hpw : List.Pairwise R l) :
    ∀ i ∈ l.take cap, ∀ j ∈ l, j ∉ l.take cap → R i j := by
  intro i hi j hjl hj
  have htad : l.take cap ++ l.drop cap = l := List.take_append_drop cap l
  have hjad : j ∈ l.take cap ++ l.drop cap := by rw [htad]; exact hjl
  have hjdrop : j ∈ l.drop cap := by
    rcases List.mem_append.mp hjad with h | h
    · exact absurd h hj
    · exact h
  have hpw2 : List.Pairwise R (l.take cap ++ l.drop cap) := by rw [htad]; exact hpw
  exact (List.pairwise_append.mp hpw2).2.2 i hi j hjdrop

theorem hpBest_dominates {frame : List Slot} {goal : String} {mh : ℕ} :
    ∀ i ∈ hpBest frame goal mh, ∀ j : ℕ, j < frame.length → j ∉ hpBest frame goal mh →
      (compute_scores frame goal).getD j 0 ≤ (compute_scores frame goal).getD i 0 := by
  intro i hi j hjlt hj
  simp only [hpBest] at hi hj
  have hjs : j ∈ sortDescIdx ((List.range frame.length).map
      (fun k => (k, (compute_scores frame goal).getD k 0))) :=
    (sortDescIdx_perm (compute_scores frame goal) (List.range frame.length)).mem_iff.mpr
      (List.mem_range.mpr hjlt)
  exact pairwise_take_not_mem
    (sortDescIdx_pairwise (compute_scores frame goal) (List.range frame.length))
    i hi j hjs hj

/-- Structure of a successful heat-pump optimisation: the selected slots get
the flat value, everything else is zero, and the series sums to the total. -/
theorem optimise_heatpump_spec (frame : List Slot) (total : ℚ) (goal : String)
    (mh : ℕ) (hpos : 0 < total) (hne : frame.length ≠ 0) (hmh : 1 ≤ mh) :
    ∃ res, optimise_heatpump frame total goal mh = some res ∧
      res.length = frame.length ∧
      (hpBest frame goal mh).length = min frame.length (mh * 2) ∧
      (∀ i ∈ hpBest frame goal mh,
        res.getD i 0 = total / ((min frame.length (mh * 2) : ℕ) : ℚ)) ∧
      (∀ j : ℕ, j ∉ hpBest frame goal mh → res.getD j 0 = 0) ∧
      res.sum = total := by
  have hlen := hpBest_length frame goal mh
  have hcap : 0 < min frame.length (mh * 2) := by
    apply Nat.lt_min.mpr
    exact ⟨Nat.pos_of_ne_zero hne, by omega⟩
  have hbl : (hpBest frame goal mh).length ≠ 0 := by omega
  refine ⟨(hpBest frame goal mh).foldl
    (fun acc i => acc.set i (total / ((hpBest frame goal mh).length : ℚ)))
    (List.replicate frame.length 0), ?_, ?_, hlen, ?_, ?_, ?_⟩
  · unfold optimise_heatpump
    rw [if_neg (not_le.mpr hpos), if_neg hbl]
  · rw [foldl_set_length, List.length_replicate]
  · intro i hi
    rw [foldl_set_getD_mem hi ?_, hlen]
    intro j hj
    rw [List.length_replicate]
    exact hpBest_lt j hj
  · intro j hj
    rw [foldl_set_getD_not_mem hj, getD_replicate_zero]
  · rw [foldl_set_sum (hpBest_nodup frame goal mh) ?_ ?_, sum_replicate_zero]
    · rw [hlen]
      have hne2 : min frame.length (mh * 2) ≠ 0 := Nat.pos_iff_ne_zero.mp hcap
      have hne3 : ((min frame.length (mh * 2) : ℕ) : ℚ) ≠ 0 := by exact_mod_cast hne2
      field_simp
    · intro i hi
      rw [List.length_replicate]
      exact hpBest_lt i hi
    · intro i _
      exact getD_replicate_zero

/-- C2: on a 48-slot frame with at least one permitted hour, the heat-pump
allocator selects exactly `min 48 (max_hours * 2)` slots, assigns each the
flat value `hp_total_kwh / cap`, leaves every other slot at zero, sums to
exactly `hp_total_kwh`, and the selected slots dominate every unselected
slot in score; a non-positive total yields the all-zero series. -/
theorem hp_allocation_correct (frame : List Slot) (hp_total_kwh : ℚ)
    (opt_goal : String) (max_hours : ℕ) (h48 : frame.length = 48)
    (hmh : 1 ≤ max_hours) :
    (hp_total_kwh ≤ 0 →
      optimise_heatpump frame hp_total_kwh opt_goal max_hours
        = some (List.replicate 48 0))
    ∧ (0 < hp_total_kwh →
      ∃ res, optimise_heatpump frame hp_total_kwh opt_goal max_hours = some res ∧
        (hpBest frame opt_goal max_hours).length = min 48 (max_hours * 2) ∧
        (∀ i ∈ hpBest frame opt_goal max_hours,
          res.getD i 0 = hp_total_kwh / ((min 48 (max_hours * 2) : ℕ) : ℚ)) ∧
        (∀ j : ℕ, j ∉ hpBest frame opt_goal max_hours → res.getD j 0 = 0) ∧
        res.sum = hp_total_kwh ∧
        (∀ i ∈ hpBest frame opt_goal max_hours, ∀ j : ℕ, j < 48 →
          j ∉ hpBest frame opt_goal max_hours →
          (compute_scores frame opt_goal).getD j 0
            ≤ (compute_scores frame opt_goal).getD i 0)) := by
  rw [← h48]
  constructor
  · intro h
    unfold optimise_heatpump
    rw [if_pos h]
  · intro hpos
    rcases optimise_heatpump_spec frame hp_total_kwh opt_goal max_hours hpos
      (by omega) hmh with ⟨res, heq, _, hcaplen, hval, hzero, hsum⟩
    exact ⟨res, heq, hcaplen, hval, hzero, hsum,
      fun i hi j hjlt hj => hpBest_dominates i hi j hjlt hj⟩

/-- C2 witness: the heat-pump allocation property instantiated on a concrete
48-slot frame with 6 kWh of demand and a 3-hour cap. -/
theorem hp_allocation_correct_witness :
    (List.replicate 48 (⟨0, 10, 100⟩ : Slot)).length = 48 ∧ 1 ≤ 3 ∧
      (((6 : ℚ) ≤ 0 →
        optimise_heatpump (List.replicate 48 ⟨0, 10, 100⟩) 6 "Balanced" 3
          = some (List.replicate 48 0))
      ∧ ((0 : ℚ) < 6 →
        ∃ res, optimise_heatpump (List.replicate 48 ⟨0, 10, 100⟩) 6 "Balanced" 3 = some res ∧
          (hpBest (List.replicate 48 ⟨0, 10, 100⟩) "Balanced" 3).length = min 48 (3 * 2) ∧
          (∀ i ∈ hpBest (List.replicate 48 ⟨0, 10, 100⟩) "Balanced" 3,
            res.getD i 0 = 6 / ((min 48 (3 * 2) : ℕ) : ℚ)) ∧
          (∀ j : ℕ, j ∉ hpBest (List.replicate 48 ⟨0, 10, 100⟩) "Balanced" 3 →
            res.getD j 0 = 0) ∧
          res.sum = 6 ∧
          (∀ i ∈ hpBest (List.replicate 48 ⟨0, 10, 100⟩) "Balanced" 3, ∀ j : ℕ, j < 48 →
            j ∉ hpBest (List.replicate 48 ⟨0, 10, 100⟩) "Balanced" 3 →
            (compute_scores (List.replicate 48 ⟨0, 10, 100⟩) "Balanced").getD j 0
              ≤ (compute_scores (List.replicate 48 ⟨0, 10, 100⟩) "Balanced").getD i 0))) :=
  ⟨by simp, by norm_num,
    hp_allocation_correct (List.replicate 48 ⟨0, 10, 100⟩) 6 "Balanced" 3
      (by simp) (by norm_num)⟩

/-- C5 (refuting theorem), covering the claim's whole input range: with
`max_hours = 0`, a non-positive total does return the all-zero series
without failing (the early return), but for every positive total the
selection `best_idx` is empty and the source computes
`hp_total_kwh / len(best_idx)` with `len(best_idx) = min(len, 0) = 0`,
raising `ZeroDivisionError` (modelled as `none`) instead of returning the
all-zero series the claim promises. -/
theorem hp_zero_hours_crash (frame : List Slot) (hp_total_kwh : ℚ)
    (opt_goal : String) :
    (hp_total_kwh ≤ 0 →
      optimise_heatpump frame hp_total_kwh opt_goal 0
        = some (List.replicate frame.length 0))
    ∧ (0 < hp_total_kwh →
      optimise_heatpump frame hp_total_kwh opt_goal 0 = none) := by
  constructor
  · intro h
    unfold optimise_heatpump
    rw [if_pos h]
  · intro hpos
    simp only [optimise_heatpump]
    rw [if_neg (not_le.mpr hpos)]
    have hb : (hpBest frame opt_goal 0).length = 0 := by
      rw [hpBest_length]
      simp
    rw [if_pos hb]

/-- C5 witness: the division-by-zero failure at a concrete input — a 48-slot
frame, 6 kWh of heat-pump electricity and `max_hours = 0` (and the intact
all-zero early return for a non-positive total on the same frame). -/
theorem hp_zero_hours_crash_witness :
    (((6 : ℚ) ≤ 0 →
      optimise_heatpump (List.replicate 48 ⟨0, 10, 100⟩) 6 "Balanced" 0
        = some (List.replicate (List.replicate 48 (⟨0, 10, 100⟩ : Slot)).length 0))
    ∧ ((0 : ℚ) < 6 →
      optimise_heatpump (List.replicate 48 ⟨0, 10, 100⟩) 6 "Balanced" 0 = none))
    ∧ optimise_heatpump (List.replicate 48 ⟨0, 10, 100⟩) 6 "Balanced" 0 = none :=
  ⟨hp_zero_hours_crash (List.replicate 48 ⟨0, 10, 100⟩) 6 "Balanced",
    (hp_zero_hours_crash (List.replicate 48 ⟨0, 10, 100⟩) 6 "Balanced").2 (by norm_num)⟩

/-- C7 counterexample: January demand 18 kWh, COP 3 (so 6 kWh electrical),
`max_hours = 16` on a concrete 48-slot frame: slot 0 of the optimised series
receives either the flat share 6/32 = 0.1875 kWh (if selected) or 0 kWh (if
not), never the 0.125 kWh the claim asserts for every slot — the cap
`min 48 (16 * 2) = 32` is below the day length, so there is no clamping to
48 and only 32 slots are filled. -/
theorem hp_january_counterexample :
    ¬(((optimise_heatpump (List.replicate 48 ⟨0, 10, 100⟩)
        (estimate_daily_heat_demand 1 / 3) "Cheapest energy" 16).getD []).getD 0 0
      = 1/8) := by
  have htot : (0 : ℚ) < estimate_daily_heat_demand 1 / 3 := by
    norm_num [estimate_daily_heat_demand]
  have h18 : estimate_daily_heat_demand 1 = 18 := by norm_num [estimate_daily_heat_demand]
  rcases optimise_heatpump_spec (List.replicate 48 ⟨0, 10, 100⟩)
      (estimate_daily_heat_demand 1 / 3) "Cheapest energy" 16 htot (by simp) (by norm_num)
    with ⟨res, heq, _, _, hval, hzero, _⟩
  rw [heq]
  simp only [Option.getD_some]
  have hmin : min (List.replicate 48 (⟨0, 10, 100⟩ : Slot)).length (16 * 2) = 32 := by
    simp
  by_cases h0 : (0 : ℕ) ∈ hpBest (List.replicate 48 ⟨0, 10, 100⟩) "Cheapest energy" 16
  · rw [hval 0 h0, hmin, h18]
    norm_num
  · rw [hzero 0 h0]
    norm_num

/-- C7 amended: for a January date with COP 3.0 over a 48-slot day the daily
thermal demand is 18 kWh and the electrical total is 6 kWh as claimed, but
with `max_hours = 16` the slot cap is `min 48 (16 * 2) = 32` — below the day
length, so no clamping occurs — and the optimised series is a flat
6/32 = 0.1875 kWh on the 32 selected slots with the other 16 slots at 0,
summing to 6 kWh. -/
theorem hp_january_amended (frame : List Slot) (opt_goal : String)
    (h48 : frame.length = 48) :
    estimate_daily_heat_demand 1 = 18 ∧
    ∃ res, optimise_heatpump frame (estimate_daily_heat_demand 1 / 3) opt_goal 16 = some res ∧
      (hpBest frame opt_goal 16).length = 32 ∧
      (∀ i ∈ hpBest frame opt_goal 16, res.getD i 0 = 3/16) ∧
      (∀ j : ℕ, j ∉ hpBest frame opt_goal 16 → res.getD j 0 = 0) ∧
      res.sum = 6 := by
  have h18 : estimate_daily_heat_demand 1 = 18 := by norm_num [estimate_daily_heat_demand]
  refine ⟨h18, ?_⟩
  rcases optimise_heatpump_spec frame (estimate_daily_heat_demand 1 / 3) opt_goal 16
      (by rw [h18]; norm_num) (by omega) (by norm_num)
    with ⟨res, heq, _, hcaplen, hval, hzero, hsum⟩
  have hmin : min frame.length (16 * 2) = 32 := by omega
  refine ⟨res, heq, ?_, ?_, hzero, ?_⟩
  · rw [hcaplen, hmin]
  · intro i hi
    rw [hval i hi, hmin, h18]
    norm_num
  · rw [hsum, h18]
    norm_num

/-- C7 witness: the amended January scenario instantiated on a concrete
48-slot frame. -/
theorem hp_january_amended_witness :
    (List.replicate 48 (⟨0, 10, 100⟩ : Slot)).length = 48 ∧
      (estimate_daily_heat_demand 1 = 18 ∧
      ∃ res, optimise_heatpump (List.replicate 48 ⟨0, 10, 100⟩)
          (estimate_daily_heat_demand 1 / 3) "Balanced" 16 = some res ∧
        (hpBest (List.replicate 48 ⟨0, 10, 100⟩) "Balanced" 16).length = 32 ∧
        (∀ i ∈ hpBest (List.replicate 48 ⟨0, 10, 100⟩) "Balanced" 16,
          res.getD i 0 = 3/16) ∧
        (∀ j : ℕ, j ∉ hpBest (List.replicate 48 ⟨0, 10, 100⟩) "Balanced" 16 →
          res.getD j 0 = 0) ∧
        res.sum = 6) :=
  ⟨by simp, hp_january_amended (List.replicate 48 ⟨0, 10, 100⟩) "Balanced" (by simp)⟩

/-- C3: on a nonempty series, if max and min differ the normalised series
attains minimum exactly 0 and maximum exactly 1 with every value in [0, 1];
if the series is constant (max equals min) every normalised value is 0.5. -/
theorem norm_minmax_correct (xs : List ℚ) (hne : xs ≠ []) :
    (seriesMax xs ≠ seriesMin xs →
      seriesMin (_norm xs) = 0 ∧ seriesMax (_norm xs) = 1 ∧
      ∀ y ∈ _norm xs, 0 ≤ y ∧ y ≤ 1)
    ∧ (seriesMax xs = seriesMin xs → ∀ y ∈ _norm xs, y = 1/2) := by
  constructor
  · intro hneq
    have hlt : seriesMin xs < seriesMax xs :=
      lt_of_le_of_ne (seriesMin_le_seriesMax hne) (fun h => hneq h.symm)
    have hden : seriesMax xs - seriesMin xs ≠ 0 := by
      intro h
      exact absurd (by linarith : seriesMax xs = seriesMin xs) hneq
    have hform : _norm xs
        = xs.map (fun x => (x - seriesMin xs) / (seriesMax xs - seriesMin xs)) := by
      unfold _norm
      rw [if_neg hneq]
    have h0 : (0 : ℚ) ∈ _norm xs := by
      rw [hform]
      have : (seriesMin xs - seriesMin xs) / (seriesMax xs - seriesMin xs) = 0 := by
        rw [sub_self, zero_div]
      rw [← this]
      exact List.mem_map_of_mem _ (seriesMin_mem hne)
    have h1 : (1 : ℚ) ∈ _norm xs := by
      rw [hform]
      have : (seriesMax xs - seriesMin xs) / (seriesMax xs - seriesMin xs) = 1 :=
        div_self hden
      rw [← this]
      exact List.mem_map_of_mem _ (seriesMax_mem hne)
    refine ⟨?_, ?_, fun y hy => norm_mem_bounds hy⟩
    · exact seriesMin_eq_of h0 (fun y hy => (norm_mem_bounds hy).1)
    · exact seriesMax_eq_of h1 (fun y hy => (norm_mem_bounds hy).2)
  · intro heq y hy
    rw [norm_const heq] at hy
    rcases List.mem_map.mp hy with ⟨x, _, rfl⟩
    rfl

/-- C3 witness: the normalisation properties at the concrete non-constant
series [1, 3] (and its degenerate constant clause holds vacuously there). -/
theorem norm_minmax_correct_witness :
    ([1, 3] : List ℚ) ≠ [] ∧
      ((seriesMax [1, 3] ≠ seriesMin [1, 3] →
        seriesMin (_norm [1, 3]) = 0 ∧ seriesMax (_norm [1, 3]) = 1 ∧
        ∀ y ∈ _norm ([1, 3] : List ℚ), 0 ≤ y ∧ y ≤ 1)
      ∧ (seriesMax [1, 3] = seriesMin [1, 3] →
          ∀ y ∈ _norm ([1, 3] : List ℚ), y = 1/2)) :=
  ⟨by simp, norm_minmax_correct [1, 3] (by simp)⟩

/-- C10: for every goal string (recognised or not) and every frame, each
per-slot score produced by `compute_scores` lies in the closed interval
[-1, 0]; in particular no slot ever receives a positive score. -/
theorem scores_in_unit_interval (frame : List Slot) (opt_goal : String) :
    ∀ y ∈ compute_scores frame opt_goal, -1 ≤ y ∧ y ≤ 0 :=
  fun _ hy => scores_mem_bounds hy

/-- C10 witness: the score bounds applied to a concrete score of a concrete
two-slot frame under the lowest-carbon goal. -/
theorem scores_in_unit_interval_witness :
    ((-(1/2) : ℚ) ∈ compute_scores [⟨0, 5, 100⟩, ⟨30, 5, 100⟩] "Lowest carbon")
    ∧ (-1 ≤ (-(1/2) : ℚ) ∧ (-(1/2) : ℚ) ≤ 0) := by
  have hmem : (-(1/2) : ℚ) ∈ compute_scores [⟨0, 5, 100⟩, ⟨30, 5, 100⟩] "Lowest carbon" := by
    have h : compute_scores [⟨0, 5, 100⟩, ⟨30, 5, 100⟩] "Lowest carbon"
        = [-(1/2), -(1/2)] := by
      norm_num [compute_scores, _norm, priceCol, carbonCol, seriesMin, seriesMax]
    rw [h]
    simp
  exact ⟨hmem,
    scores_in_unit_interval [⟨0, 5, 100⟩, ⟨30, 5, 100⟩] "Lowest carbon" (-(1/2)) hmem⟩

/-- Unwinding of the EV-baseline loop on a non-positive requirement: nothing
is ever assigned. -/
theorem evBaselineLoop_nonpos {slot_kwh : ℚ} {arrival : ℕ} {rem : ℚ} (h : rem ≤ 0) :
    ∀ ts : List ℕ, evBaselineLoop slot_kwh arrival ts rem = List.replicate ts.length 0 := by
  intro ts
  induction ts with
  | nil => rfl
  | cons t ts ih =>
    rw [evBaselineLoop, if_neg (fun hc => absurd hc.2 (not_lt.mpr h)), ih]
    simp [List.replicate_succ]

/-- C6 (refuting theorem): a negative required energy does not fail fast —
the EV optimiser and the EV baseline both silently return the all-zero
series, and no validation error exists anywhere in the core. -/
theorem negative_params_silent (frame : List Slot) (times : List ℕ)
    (arrival depart : ℕ) (ev_kwh_needed power_kw charger_kw : ℚ)
    (opt_goal : String) (hneg : ev_kwh_needed ≤ 0) :
    optimise_ev frame arrival depart ev_kwh_needed opt_goal charger_kw
      = List.replicate frame.length 0
    ∧ build_ev_baseline times arrival ev_kwh_needed power_kw
      = List.replicate times.length 0 := by
  constructor
  · simp only [optimise_ev]
    rw [if_pos (Or.inr hneg)]
  · exact evBaselineLoop_nonpos hneg times

/-- C6 witness: the silent all-zero outputs at the concrete negative
requirement of -5 kWh. -/
theorem negative_params_silent_witness :
    (-5 : ℚ) ≤ 0 ∧
      (optimise_ev [⟨0, 5, 100⟩, ⟨30, 5, 100⟩] 0 60 (-5) "Balanced" 7
        = List.replicate ([⟨0, 5, 100⟩, ⟨30, 5, 100⟩] : List Slot).length 0
      ∧ build_ev_baseline [0, 30] 0 (-5) 7
        = List.replicate ([0, 30] : List ℕ).length 0) :=
  ⟨by norm_num,
    negative_params_silent [⟨0, 5, 100⟩, ⟨30, 5, 100⟩] [0, 30] 0 60 (-5) 7 7
      "Balanced" (by norm_num)⟩

/-! ### Helper lemmas: baseline loops and comfort windows -/

theorem windowIdx_nodup (times : List ℕ) (w : ℕ × ℕ) : (windowIdx times w).Nodup :=
  (List.nodup_range times.length).filter _

theorem windowIdx_lt {times : List ℕ} {w : ℕ × ℕ} :
    ∀ i ∈ windowIdx times w, i < times.length := by
  intro i hi
  exact List.mem_range.mp (List.mem_of_mem_filter hi)

theorem evBaselineLoop_sum (slot_kwh : ℚ) (arrival : ℕ) :
    ∀ ts : List ℕ, ∀ rem : ℚ, 0 ≤ rem →
      (evBaselineLoop slot_kwh arrival ts rem).sum
        = allocTotal slot_kwh ((ts.filter (fun t => decide (arrival ≤ t))).length) rem := by
  intro ts
  induction ts with
  | nil =>
    intro rem _
    rfl
  | cons t ts ih =>
    intro rem hrem
    by_cases ha : arrival ≤ t
    · have hfil : ((t :: ts).filter (fun t => decide (arrival ≤ t))).length
          = (ts.filter (fun t => decide (arrival ≤ t))).length + 1 := by
        simp [List.filter_cons, ha]
      by_cases hr : 0 < rem
      · rw [evBaselineLoop, if_pos ⟨ha, hr⟩, List.sum_cons,
          ih (rem - min slot_kwh rem) (by
            have := min_le_right slot_kwh rem
            linarith),
          hfil, allocTotal, if_neg (not_le.mpr hr)]
      · have hrem0 : rem = 0 := le_antisymm (not_lt.mp hr) hrem
        subst hrem0
        rw [evBaselineLoop, if_neg (fun hc => absurd hc.2 (lt_irrefl 0)), List.sum_cons,
          ih 0 le_rfl, hfil, allocTotal_nonpos le_rfl, allocTotal_nonpos le_rfl]
        ring
    · have hfil : ((t :: ts).filter (fun t => decide (arrival ≤ t))).length
          = (ts.filter (fun t => decide (arrival ≤ t))).length := by
        simp [List.filter_cons, ha]
      rw [evBaselineLoop, if_neg (fun hc => absurd hc.1 ha), List.sum_cons,
        ih rem hrem, hfil]
      ring

theorem evBaselineLoop_before_arrival (slot_kwh : ℚ) (arrival : ℕ) :
    ∀ ts : List ℕ, ∀ rem : ℚ, ∀ i : ℕ, i < ts.length → ts.getD i 0 < arrival →
      (evBaselineLoop slot_kwh arrival ts rem).getD i 0 = 0 := by
  intro ts
  induction ts with
  | nil =>
    intro rem i hi _
    simp at hi
  | cons t ts ih =>
    intro rem i hi hlt
    cases i with
    | zero =>
      rw [List.getD_cons_zero] at hlt
      rw [evBaselineLoop, if_neg (fun hc => absurd hc.1 (not_le.mpr hlt)),
        List.getD_cons_zero]
    | succ k =>
      rw [List.getD_cons_succ] at hlt
      have hk : k < ts.length := by simpa using hi
      by_cases hc : arrival ≤ t ∧ 0 < rem
      · rw [evBaselineLoop, if_pos hc, List.getD_cons_succ]
        exact ih _ k hk hlt
      · rw [evBaselineLoop, if_neg hc, List.getD_cons_succ]
        exact ih _ k hk hlt

theorem evBaselineLoop_mem_bounds {slot_kwh : ℚ} {arrival : ℕ} (hsk : 0 ≤ slot_kwh) :
    ∀ ts : List ℕ, ∀ rem : ℚ, 0 ≤ rem →
      ∀ x ∈ evBaselineLoop slot_kwh arrival ts rem, 0 ≤ x ∧ x ≤ slot_kwh := by
  intro ts
  induction ts with
  | nil =>
    intro rem _ x hx
    simp [evBaselineLoop] at hx
  | cons t ts ih =>
    intro rem hrem x hx
    by_cases hc : arrival ≤ t ∧ 0 < rem
    · rw [evBaselineLoop, if_pos hc] at hx
      rcases List.mem_cons.mp hx with rfl | hx2
      · exact ⟨le_min hsk (le_of_lt hc.2), min_le_left _ _⟩
      · refine ih (rem - min slot_kwh rem) ?_ x hx2
        have := min_le_right slot_kwh rem
        linarith
    · rw [evBaselineLoop, if_neg hc] at hx
      rcases List.mem_cons.mp hx with rfl | hx2
      · exact ⟨le_rfl, hsk⟩
      · exact ih rem hrem x hx2

theorem evBaselineLoop_getD_after {slot_kwh : ℚ} {arrival : ℕ} (hsk : 0 ≤ slot_kwh) :
    ∀ ts : List ℕ, ∀ rem : ℚ, 0 ≤ rem → ∀ i : ℕ, i < ts.length →
      arrival ≤ ts.getD i 0 →
      (evBaselineLoop slot_kwh arrival ts rem).getD i 0
        = min slot_kwh
            (max (rem - (((ts.take i).filter (fun t => decide (arrival ≤ t))).length : ℚ)
              * slot_kwh) 0) := by
  intro ts
  induction ts with
  | nil =>
    intro rem _ i hi _
    simp at hi
  | cons t ts ih =>
    intro rem hrem i hi hai
    cases i with
    | zero =>
      rw [List.getD_cons_zero] at hai
      simp only [List.take_zero, List.filter_nil, List.length_nil, Nat.cast_zero,
        zero_mul, sub_zero]
      rw [max_eq_left hrem]
      by_cases hr : 0 < rem
      · rw [evBaselineLoop, if_pos ⟨hai, hr⟩, List.getD_cons_zero]
      · have hrem0 : rem = 0 := le_antisymm (not_lt.mp hr) hrem
        subst hrem0
        rw [evBaselineLoop, if_neg (fun hc => absurd hc.2 (lt_irrefl 0)),
          List.getD_cons_zero, min_eq_right hsk]
    | succ k =>
      rw [List.getD_cons_succ] at hai
      have hk : k < ts.length := by simpa using hi
      have hn0 : (0 : ℚ) ≤ (((ts.take k).filter (fun t => decide (arrival ≤ t))).length : ℚ)
          * slot_kwh := by positivity
      by_cases hat : arrival ≤ t
      · have hcount : (((t :: ts).take (k + 1)).filter (fun t => decide (arrival ≤ t))).length
            = ((ts.take k).filter (fun t => decide (arrival ≤ t))).length + 1 := by
          simp [List.take_succ_cons, List.filter_cons, hat]
        rw [hcount]
        by_cases hr : 0 < rem
        · rw [evBaselineLoop, if_pos ⟨hat, hr⟩, List.getD_cons_succ,
            ih (rem - min slot_kwh rem) (by
              have := min_le_right slot_kwh rem
              linarith) k hk hai]
          rcases le_total slot_kwh rem with hle | hle
          · have harg : rem - min slot_kwh rem
                - (((ts.take k).filter (fun t => decide (arrival ≤ t))).length : ℚ) * slot_kwh
                = rem - ((((ts.take k).filter (fun t => decide (arrival ≤ t))).length : ℚ) + 1)
                  * slot_kwh := by
              rw [min_eq_left hle]
              ring
            rw [harg]
            push_cast
            ring_nf
          · have h1 : rem - min slot_kwh rem
                - (((ts.take k).filter (fun t => decide (arrival ≤ t))).length : ℚ) * slot_kwh
                ≤ 0 := by
              rw [min_eq_right hle]
              linarith
            have h2 : rem - ((((ts.take k).filter (fun t => decide (arrival ≤ t))).length : ℚ) + 1)
                * slot_kwh ≤ 0 := by nlinarith
            rw [max_eq_right h1, min_eq_right hsk]
            rw [show ((((ts.take k).filter (fun t => decide (arrival ≤ t))).length + 1 : ℕ) : ℚ)
                = (((ts.take k).filter (fun t => decide (arrival ≤ t))).length : ℚ) + 1 by
              push_cast; ring]
            rw [max_eq_right h2, min_eq_right hsk]
        · have hrem0 : rem = 0 := le_antisymm (not_lt.mp hr) hrem
          subst hrem0
          rw [evBaselineLoop, if_neg (fun hc => absurd hc.2 (lt_irrefl 0)),
            List.getD_cons_succ, ih 0 le_rfl k hk hai]
          have h1 : (0 : ℚ) - (((ts.take k).filter (fun t => decide (arrival ≤ t))).length : ℚ)
              * slot_kwh ≤ 0 := by linarith
          have h2 : (0 : ℚ) - ((((ts.take k).filter (fun t => decide (arrival ≤ t))).length
              + 1 : ℕ) : ℚ) * slot_kwh ≤ 0 := by
            push_cast
            nlinarith
          rw [max_eq_right h1, min_eq_right hsk, max_eq_right h2, min_eq_right hsk]
      · have hcount : (((t :: ts).take (k + 1)).filter (fun t => decide (arrival ≤ t))).length
            = ((ts.take k).filter (fun t => decide (arrival ≤ t))).length := by
          simp [List.take_succ_cons, List.filter_cons, hat]
        rw [hcount, evBaselineLoop, if_neg (fun hc => absurd hc.1 hat),
          List.getD_cons_succ, ih rem hrem k hk hai]

/-- C9: the EV baseline fills the slots at or after the arrival timestamp
successively in day order: the slot with `k` charged slots before it
receives `min (power_kw * 0.5) (max (ev_kwh_needed - k * power_kw * 0.5) 0)`
— the full `power_kw * 0.5` while the need lasts, then one final partial
slot, then 0 — assigns nothing before arrival, and its total is
`min ev_kwh_needed (number of slots at or after arrival * power_kw * 0.5)`;
under-delivery when the day ends first is the min, not an error. -/
theorem ev_baseline_correct (times : List ℕ) (arrival : ℕ)
    (ev_kwh_needed power_kw : ℚ) (hneed : 0 ≤ ev_kwh_needed) (hpw : 0 ≤ power_kw) :
    (build_ev_baseline times arrival ev_kwh_needed power_kw).sum
      = min ev_kwh_needed
          (((times.filter (fun t => decide (arrival ≤ t))).length : ℚ) * (power_kw * (1/2)))
    ∧ (∀ i : ℕ, i < times.length → times.getD i 0 < arrival →
        (build_ev_baseline times arrival ev_kwh_needed power_kw).getD i 0 = 0)
    ∧ (∀ i : ℕ, i < times.length → arrival ≤ times.getD i 0 →
        (build_ev_baseline times arrival ev_kwh_needed power_kw).getD i 0
          = min (power_kw * (1/2))
              (max (ev_kwh_needed
                - (((times.take i).filter (fun t => decide (arrival ≤ t))).length : ℚ)
                  * (power_kw * (1/2))) 0))
    ∧ (∀ x ∈ build_ev_baseline times arrival ev_kwh_needed power_kw,
        0 ≤ x ∧ x ≤ power_kw * (1/2)) := by
  have hsk : (0 : ℚ) ≤ power_kw * (1/2) := by positivity
  refine ⟨?_, ?_, ?_, ?_⟩
  · unfold build_ev_baseline
    rw [evBaselineLoop_sum (power_kw * (1/2)) arrival times ev_kwh_needed hneed,
      allocTotal_eq_min hsk _ ev_kwh_needed hneed]
  · intro i hi hlt
    exact evBaselineLoop_before_arrival (power_kw * (1/2)) arrival times ev_kwh_needed i hi hlt
  · intro i hi hai
    exact evBaselineLoop_getD_after hsk times ev_kwh_needed hneed i hi hai
  · intro x hx
    exact evBaselineLoop_mem_bounds hsk times ev_kwh_needed hneed x hx

/-- C9 witness: the EV baseline property at concrete four half-hour slots
with arrival at slot 1, 5 kWh of need and a 7 kW charger. -/
theorem ev_baseline_correct_witness :
    (0 : ℚ) ≤ 5 ∧ (0 : ℚ) ≤ 7 ∧
      ((build_ev_baseline [0, 30, 60, 90] 30 5 7).sum
        = min 5 (((([0, 30, 60, 90] : List ℕ).filter (fun t => decide (30 ≤ t))).length : ℚ)
            * (7 * (1/2)))
      ∧ (∀ i : ℕ, i < ([0, 30, 60, 90] : List ℕ).length →
          ([0, 30, 60, 90] : List ℕ).getD i 0 < 30 →
          (build_ev_baseline [0, 30, 60, 90] 30 5 7).getD i 0 = 0)
      ∧ (∀ i : ℕ, i < ([0, 30, 60, 90] : List ℕ).length →
          30 ≤ ([0, 30, 60, 90] : List ℕ).getD i 0 →
          (build_ev_baseline [0, 30, 60, 90] 30 5 7).getD i 0
            = min (7 * (1/2))
                (max ((5 : ℚ)
                  - (((([0, 30, 60, 90] : List ℕ).take i).filter
                      (fun t => decide (30 ≤ t))).length : ℚ) * (7 * (1/2))) 0))
      ∧ (∀ x ∈ build_ev_baseline [0, 30, 60, 90] 30 5 7, 0 ≤ x ∧ x ≤ 7 * (1/2))) :=
  ⟨by norm_num, by norm_num,
    ev_baseline_correct [0, 30, 60, 90] 30 5 7 (by norm_num) (by norm_num)⟩

/-- C8 counterexample: on a full 48-slot January day (slots at
0, 30, ..., 1410 minutes) with two identical (fully overlapping) one-hour
comfort windows 06:00-07:00 and COP 3, the electrical total is
18 / 3 = 6 kWh but the baseline series sums to only 3 kWh — the two
overlapping slots are counted twice in the divisor, so the sum is not the
total. -/
theorem hp_baseline_overlap_counterexample :
    (build_heatpump_baseline 1 ((List.range 48).map (fun i => i * 30))
        (360, 420) (360, 420) 3).sum = 3
    ∧ estimate_daily_heat_demand 1 / 3 = 6
    ∧ ¬((3 : ℚ) = 6) := by
  refine ⟨?_, by norm_num [estimate_daily_heat_demand], by norm_num⟩
  norm_num [build_heatpump_baseline, windowIdx, estimate_daily_heat_demand,
    List.range_succ, List.replicate_succ, List.set_cons_succ, List.set_cons_zero,
    List.sum_cons]

/-- C8 amended: when the two comfort windows are disjoint on the grid (no
slot position falls in both), the heat-pump baseline over a 48-slot grid
sums to exactly `estimate_daily_heat_demand month / cop` whenever the
windows contain at least one slot, with the same per-slot value on every
window slot and 0 elsewhere; when the windows contain zero slots the series
is all-zero with no failure.  (With overlapping windows the source
double-counts the shared slots in the divisor and the series
under-delivers.) -/
theorem hp_baseline_correct (month : ℕ) (times : List ℕ)
    (mw ew : ℕ × ℕ) (cop : ℚ) (h48 : times.length = 48) (hcop : 0 < cop)
    (hdisj : ∀ i ∈ windowIdx times mw, i ∉ windowIdx times ew) :
    (windowIdx times mw ++ windowIdx times ew = [] →
      build_heatpump_baseline month times mw ew cop = List.replicate times.length 0)
    ∧ (windowIdx times mw ++ windowIdx times ew ≠ [] →
      (build_heatpump_baseline month times mw ew cop).sum
        = estimate_daily_heat_demand month / cop
      ∧ (∀ i ∈ windowIdx times mw ++ windowIdx times ew,
          (build_heatpump_baseline month times mw ew cop).getD i 0
            = estimate_daily_heat_demand month / cop
              / (((windowIdx times mw ++ windowIdx times ew).length : ℕ) : ℚ))
      ∧ (∀ j : ℕ, j ∉ windowIdx times mw ++ windowIdx times ew →
          (build_heatpump_baseline month times mw ew cop).getD j 0 = 0)) := by
  have hlt : ∀ i ∈ windowIdx times mw ++ windowIdx times ew, i < times.length := by
    intro i hi
    rcases List.mem_append.mp hi with h | h
    · exact windowIdx_lt i h
    · exact windowIdx_lt i h
  constructor
  · intro h
    unfold build_heatpump_baseline
    rw [if_pos (by rw [h]; rfl)]
  · intro h
    have hlen : (windowIdx times mw ++ windowIdx times ew).length ≠ 0 := by
      intro h0
      exact h (List.eq_nil_of_length_eq_zero h0)
    have hnd : (windowIdx times mw ++ windowIdx times ew).Nodup :=
      (windowIdx_nodup times mw).append (windowIdx_nodup times ew)
        (List.disjoint_left.mpr hdisj)
    have hform : build_heatpump_baseline month times mw ew cop
        = (windowIdx times mw ++ windowIdx times ew).foldl
            (fun acc i => acc.set i (estimate_daily_heat_demand month / cop
              / (((windowIdx times mw ++ windowIdx times ew).length : ℕ) : ℚ)))
            (List.replicate times.length 0) := by
      unfold build_heatpump_baseline
      rw [if_neg hlen]
    have hltr : ∀ i ∈ windowIdx times mw ++ windowIdx times ew,
        i < (List.replicate times.length (0 : ℚ)).length := by
      intro i hi
      rw [List.length_replicate]
      exact hlt i hi
    refine ⟨?_, ?_, ?_⟩
    · rw [hform, foldl_set_sum hnd hltr (fun i _ => getD_replicate_zero), sum_replicate_zero]
      have hlenq : (((windowIdx times mw ++ windowIdx times ew).length : ℕ) : ℚ) ≠ 0 := by
        exact_mod_cast hlen
      rw [zero_add, mul_comm]
      exact div_mul_cancel₀ _ hlenq
    · intro i hi
      rw [hform, foldl_set_getD_mem hi hltr]
    · intro j hj
      rw [hform, foldl_set_getD_not_mem hj, getD_replicate_zero]

/-- C8 witness: the disjoint-window baseline property on a concrete full
48-slot January day with the morning window 06:00-07:00, the evening window
17:00-21:00 and COP 3. -/
theorem hp_baseline_correct_witness :
    ((List.range 48).map (fun i => i * 30)).length = 48 ∧ (0 : ℚ) < 3 ∧
      (∀ i ∈ windowIdx ((List.range 48).map (fun i => i * 30)) (360, 420),
        i ∉ windowIdx ((List.range 48).map (fun i => i * 30)) (1020, 1260)) ∧
      ((windowIdx ((List.range 48).map (fun i => i * 30)) (360, 420)
          ++ windowIdx ((List.range 48).map (fun i => i * 30)) (1020, 1260) = [] →
        build_heatpump_baseline 1 ((List.range 48).map (fun i => i * 30))
            (360, 420) (1020, 1260) 3
          = List.replicate ((List.range 48).map (fun i => i * 30)).length 0)
      ∧ (windowIdx ((List.range 48).map (fun i => i * 30)) (360, 420)
          ++ windowIdx ((List.range 48).map (fun i => i * 30)) (1020, 1260) ≠ [] →
        (build_heatpump_baseline 1 ((List.range 48).map (fun i => i * 30))
            (360, 420) (1020, 1260) 3).sum
          = estimate_daily_heat_demand 1 / 3
        ∧ (∀ i ∈ windowIdx ((List.range 48).map (fun i => i * 30)) (360, 420)
            ++ windowIdx ((List.range 48).map (fun i => i * 30)) (1020, 1260),
            (build_heatpump_baseline 1 ((List.range 48).map (fun i => i * 30))
                (360, 420) (1020, 1260) 3).getD i 0
              = estimate_daily_heat_demand 1 / 3
                / (((windowIdx ((List.range 48).map (fun i => i * 30)) (360, 420)
                    ++ windowIdx ((List.range 48).map (fun i => i * 30)) (1020, 1260)).length
                      : ℕ) : ℚ))
        ∧ (∀ j : ℕ, j ∉ windowIdx ((List.range 48).map (fun i => i * 30)) (360, 420)
            ++ windowIdx ((List.range 48).map (fun i => i * 30)) (1020, 1260) →
            (build_heatpump_baseline 1 ((List.range 48).map (fun i => i * 30))
                (360, 420) (1020, 1260) 3).getD j 0 = 0))) :=
  ⟨by simp, by norm_num, by decide,
    hp_baseline_correct 1 ((List.range 48).map (fun i => i * 30)) (360, 420) (1020, 1260) 3
      (by simp) (by norm_num) (by decide)⟩
